import Mathlib

/- Verification development for the MOEX bond data collector
   (`moex_collector.py` and `table_manager.py`).

   The development is a shallow embedding of the data-ingestion pipeline:
   column mapping (`get_column_mapping`), row projection and idempotent
   insertion (`insert_data_generic`), cursor-based pagination
   (`get_all_securities` and the three `has_more` loops in `main`), and the
   orchestration in `main` (mode handling, per-ISIN / per-date iteration,
   connection lifecycle).

   Conventions:
   * Python `None` / SQL NULL is `Option.none`; every scalar cell is
     `Option String` (the numeric/string distinction never matters here).
   * The HTTP layer is an oracle: a finite list of responses consumed one
     per request; an exhausted oracle means further requests fail (the
     `fetch_moex_data` error path, which returns Python `None`).
   * Python string methods that the source uses (`str.upper`, `str.strip`,
     `str.split(',')`) are embedded as `List Char` computations so that
     concrete runs reduce inside the kernel. -/

namespace Moex

/-- A scalar cell: `none` is Python `None` / SQL NULL. -/
abbrev Cell := Option String

/-- One row (a Python list of scalars), either a Page row from the API or a
destination-table row. -/
abbrev Row := List Cell

/-- Embeds Python `str.upper()` (ASCII case mapping suffices for the config
keys and ISINs this program handles). -/
def pyUpper (s : String) : String := ⟨s.data.map Char.toUpper⟩

/-- Embeds Python `str.strip()`: drop whitespace from both ends. -/
def pyStrip (s : String) : String :=
  ⟨((s.data.dropWhile Char.isWhitespace).reverse.dropWhile Char.isWhitespace).reverse⟩

/-- Helper for `pySplitComma`: accumulates the current chunk (reversed). -/
def splitCommaAux : List Char → List Char → List String
  | [], acc => [String.mk acc.reverse]
  | c :: cs, acc =>
    if c = ',' then String.mk acc.reverse :: splitCommaAux cs []
    else splitCommaAux cs (c :: acc)

/-- Embeds Python `s.split(',')`. -/
def pySplitComma (s : String) : List String := splitCommaAux s.data []

/-- Embeds `moex_collector.py:168`:
`[isin.strip().upper() for isin in args.isin.split(',')]`. -/
def splitIsins (s : String) : List String :=
  (pySplitComma s).map (fun t => pyUpper (pyStrip t))

/-- Python `dict` assignment `m[k] = v` on an association list that keeps the
first-insertion position of each key, as a Python dict does. -/
def assocSet : List (String × String) → String → String → List (String × String)
  | [], k, v => [(k, v)]
  | (k', v') :: rest, k, v =>
    if k' = k then (k, v) :: rest else (k', v') :: assocSet rest k v

/-- Embeds `get_column_mapping` (`moex_collector.py:225-238`).
`options` is `config.options('TABLE_SCHEMA:<key>')`: the destination column
names in declaration order, case preserved (`optionxform = str`). The dict
maps `db_column_name.upper()` to `db_column_name`. -/
def get_column_mapping (options : List String) : List (String × String) :=
  options.foldl (fun m db => assocSet m (pyUpper db) db) []

/-- Helper for `resolveColumns`: the loop of `moex_collector.py:263-267`
(`for i, api_col_name in enumerate(api_columns)`), carrying the running
index. Each output pair is (destination column name, page-column index). -/
def resolveAux (mapping : List (String × String)) : List String → Nat → List (String × Nat)
  | [], _ => []
  | c :: cs, i =>
    match List.lookup c mapping with
    | some db => (db, i) :: resolveAux mapping cs (i + 1)
    | none => resolveAux mapping cs (i + 1)

/-- Embeds the column-resolution loop of `insert_data_generic`
(`moex_collector.py:260-267`): `db_columns_in_order` and
`api_indices_in_order`, zipped. The membership test
`api_col_name in column_mapping` is an exact dict lookup. -/
def resolveColumns (mapping : List (String × String)) (apiColumns : List String) :
    List (String × Nat) :=
  resolveAux mapping apiColumns 0

/-- Modelled from the spec (for comparison with `resolveColumns` only; claim
C2's description of the selection rule): select those page columns whose
external name matches a mapping entry case-insensitively. -/
def resolveColumnsSpecCI (mapping : List (String × String)) : List String → Nat → List (String × Nat)
  | [], _ => []
  | c :: cs, i =>
    match mapping.find? (fun e => pyUpper e.1 == pyUpper c) with
    | some e => (e.2, i) :: resolveColumnsSpecCI mapping cs (i + 1)
    | none => resolveColumnsSpecCI mapping cs (i + 1)

/-- Embeds the destination-row construction of `moex_collector.py:290`:
`db_row = [row[i] if i < len(row) else None for i in api_indices_in_order]`. -/
def projectRow (row : Row) (idxs : List Nat) : Row :=
  idxs.map (fun i => if i < row.length then row.getD i none else none)

/-- One API data block as consumed by `insert_data_generic`: the `columns`
list and the `data` row list of e.g. `data['history']`. -/
structure Block where
  columns : List String
  data : List Row
  deriving DecidableEq, Repr

/-- Outcome of one `insert_data_generic` call, matching its return paths:
the early returns of lines 242-273, a successful commit with the accumulated
`cur.rowcount` total (line 292-294), or the `except`+`rollback` path
(lines 295-300). -/
inductive InsertResult where
  | noData
  | noColumns
  | noMapping
  | noMatch
  | ok (affected : Nat)
  | rolledBack
  deriving DecidableEq, Repr

/-- One `INSERT ... ON CONFLICT DO NOTHING` execution (`moex_collector.py:279-292`)
against the table state: if a row with the same unique key (`key`) exists, the
row is skipped and `cur.rowcount` is 0; otherwise the row is appended and
`cur.rowcount` is 1. `key` models the destination table's unique/natural key
enforced at the storage layer. -/
def insertRowDb (key : Row → List Cell) (db : List Row) (r : Row) : List Row × Nat :=
  if db.any (fun r2 => decide (key r2 = key r)) then (db, 0) else (db ++ [r], 1)

/-- The `for row in rows` execute loop of `moex_collector.py:288-292` inside
one transaction. `failAt = some k` means the `cur.execute` for the k-th row
raises a storage error (`psycopg2.Error`); the result is then `none`
(the transaction will be rolled back by the caller). On success it returns
the post-loop (uncommitted) state and the accumulated `inserted_count`. -/
def execRows (key : Row → List Cell) (failAt : Option Nat) (idxs : List Nat) :
    List Row → List Row → Nat → Option (List Row × Nat)
  | [], db, _ => some (db, 0)
  | r :: rs, db, k =>
    if failAt = some k then none
    else
      match execRows key failAt idxs rs (insertRowDb key db (projectRow r idxs)).1 (k + 1) with
      | some q => some (q.1, (insertRowDb key db (projectRow r idxs)).2 + q.2)
      | none => none

/-- Embeds `insert_data_generic` (`moex_collector.py:240-300`). Returns the
destination-table state after the call together with the reported result.
The five branches mirror the source: empty `data['data']` (line 242), empty
`columns` (line 250), empty column mapping (line 256), no matching columns
(line 271), then the transactional insert loop with commit (line 293) or
rollback on a storage error (lines 295-300). -/
def insert_data_generic (key : Row → List Cell) (failAt : Option Nat)
    (db : List Row) (blk : Block) (options : List String) : List Row × InsertResult :=
  if blk.data = [] then (db, .noData)
  else if blk.columns = [] then (db, .noColumns)
  else
    let mapping := get_column_mapping options
    if mapping = [] then (db, .noMapping)
    else
      let resolved := resolveColumns mapping blk.columns
      if resolved = [] then (db, .noMatch)
      else
        match execRows key failAt (resolved.map Prod.snd) blk.data db 0 with
        | some q => (q.1, .ok q.2)
        | none => (db, .rolledBack)

/-- The page-column indices `api_indices_in_order` computed by
`insert_data_generic` for a block under the given options. -/
def blockIdxs (opts : List String) (blk : Block) : List Nat :=
  (resolveColumns (get_column_mapping opts) blk.columns).map Prod.snd

/-- The condition under which `insert_data_generic` reaches its transactional
insert loop (none of its four early returns fires). -/
def execCond (opts : List String) (blk : Block) : Prop :=
  blk.data ≠ [] ∧ blk.columns ≠ [] ∧ get_column_mapping opts ≠ [] ∧
    resolveColumns (get_column_mapping opts) blk.columns ≠ []

/-- Sequentially loading a list of Pages with no storage failures: the state
after feeding each block to `insert_data_generic` in turn (the orchestrator's
repeated calls, e.g. `moex_collector.py:370,379,414,437`). -/
def loadBlocks (key : Row → List Cell) (options : List String) :
    List Block → List Row → List Row
  | [], db => db
  | b :: bs, db => loadBlocks key options bs (insert_data_generic key none db b options).1

/-- The pagination cursor triple, decoded by
`index, total, pagesize = cursor_data[0]`. All three components are
nonnegative counts/offsets. -/
structure Cursor where
  index : Nat
  total : Nat
  pagesize : Nat
  deriving DecidableEq, Repr

/-- One parsed JSON response, restricted to what the collector reads from it:
the expected data block (`'securities'`, `'history'`, `'description'`,
`'coupons'`, ...) and the matching `'<block>.cursor'` triple. `block = none`
models the block key being absent; `cursor = none` models both an absent
cursor key and one whose `data` list is empty (the code treats the two
identically). -/
structure ApiResp where
  block : Option Block
  cursor : Option Cursor
  deriving DecidableEq, Repr

/-- Observable actions of one run: HTTP GET requests, the destination-table
statements, and the connection lifecycle. -/
inductive Ev where
  | fetch
  | truncate
  | insertCall (res : InsertResult)
  | connOpen
  | connClose
  deriving DecidableEq, Repr

/-- Output of one `has_more` pagination loop: the `start` value of every
issued request in order, the emitted events, the unconsumed oracle suffix,
the updated insert-call counter and table state. -/
structure PagedOut where
  starts : List Nat
  evs : List Ev
  rest : List (Option ApiResp)
  cIdx : Nat
  db : List Row
  deriving Repr

/-- Per-page body of the `has_more` loops: `if data and <block> in data and
data[<block>].get('data'): insert_data_generic(...)`. Returns the new table
state, the increment of the insert-call counter (1 exactly when
`insert_data_generic` was invoked) and the emitted events. -/
def pageInsertStep (key : Row → List Cell) (failAt : Option Nat) (opts : List String)
    (db : List Row) (resp : ApiResp) : List Row × Nat × List Ev :=
  match resp.block with
  | some blk =>
    if blk.data = [] then (db, 0, [])
    else
      let r := insert_data_generic key failAt db blk opts
      (r.1, 1, [Ev.insertCall r.2])
  | none => (db, 0, [])

/-- Embeds the three structurally identical `has_more` pagination loops of
`main` (`moex_collector.py:374-392` for quotas, `409-427` and `433-450` for
bondization). The oracle is consumed one response per request; an exhausted
oracle models `fetch_moex_data` failing (returning `None`), on which the loop
breaks (`if not data: break`, and the cursor check `if data and ...` already
failed). `start` is `params['start']`; the cursor check sets `has_more` and
advances `start` by `pagesize` exactly when `start + pagesize < total`. -/
def pagedLoop (key : Row → List Cell) (fp : Nat → Option Nat) (opts : List String) :
    List (Option ApiResp) → Nat → Nat → List Row → PagedOut
  | [], start, cIdx, db => ⟨[start], [Ev.fetch], [], cIdx, db⟩
  | none :: rest, start, cIdx, db => ⟨[start], [Ev.fetch], rest, cIdx, db⟩
  | some resp :: rest, start, cIdx, db =>
    let s := pageInsertStep key (fp cIdx) opts db resp
    match resp.cursor with
    | some c =>
      if start + c.pagesize < c.total then
        let o := pagedLoop key fp opts rest (start + c.pagesize) (cIdx + s.2.1) s.1
        ⟨start :: o.starts, Ev.fetch :: s.2.2 ++ o.evs, o.rest, o.cIdx, o.db⟩
      else ⟨[start], Ev.fetch :: s.2.2, rest, cIdx + s.2.1, s.1⟩
    | none => ⟨[start], Ev.fetch :: s.2.2, rest, cIdx + s.2.1, s.1⟩

/-- Output of `get_all_securities`: the accumulated row list, the `start`
value of every issued request, and the unconsumed oracle suffix. -/
structure SecOut where
  rows : List Row
  starts : List Nat
  rest : List (Option ApiResp)
  deriving Repr

/-- Embeds `get_all_securities` (`moex_collector.py:135-163`): the
`while True` loop breaks when the fetch fails, the `'securities'` block is
absent, or its `data` is empty; otherwise it accumulates the rows and — when
a nonempty cursor is present — continues with `start += pagesize` unless
`start + pagesize >= total`; an absent/empty cursor stops the loop. The
function returns the accumulated ROW LIST (`securities`), not a dict. -/
def getAllSecuritiesLoop : List (Option ApiResp) → Nat → SecOut
  | [], start => ⟨[], [start], []⟩
  | none :: rest, start => ⟨[], [start], rest⟩
  | some resp :: rest, start =>
    match resp.block with
    | none => ⟨[], [start], rest⟩
    | some blk =>
      if blk.data = [] then ⟨[], [start], rest⟩
      else
        match resp.cursor with
        | none => ⟨blk.data, [start], rest⟩
        | some c =>
          if start + c.pagesize ≥ c.total then ⟨blk.data, [start], rest⟩
          else
            let o := getAllSecuritiesLoop rest (start + c.pagesize)
            ⟨blk.data ++ o.rows, start :: o.starts, o.rest⟩

/-- Output of the non-paginated orchestration loops. -/
structure LoopOut where
  evs : List Ev
  rest : List (Option ApiResp)
  cIdx : Nat
  db : List Row
  deriving Repr

/-- Embeds the single-request-per-item loops of `main`: the bonds per-ISIN
loop (`moex_collector.py:339-346`) and the quotas per-ISIN loop for one date
(`moex_collector.py:364-370`). Each item causes exactly one fetch (the
endpoint URL and parameters are implicit in the oracle position); when the
response carries the expected block with nonempty data the page is fed to
`insert_data_generic`; a failed fetch or unexpected shape does not stop the
iteration. -/
def singleFetchInsertLoop (key : Row → List Cell) (fp : Nat → Option Nat)
    (opts : List String) :
    List String → List (Option ApiResp) → Nat → List Row → LoopOut
  | [], ora, cIdx, db => ⟨[], ora, cIdx, db⟩
  | _item :: items, ora, cIdx, db =>
    match ora with
    | [] =>
      let o := singleFetchInsertLoop key fp opts items [] cIdx db
      ⟨Ev.fetch :: o.evs, o.rest, o.cIdx, o.db⟩
    | none :: rest =>
      let o := singleFetchInsertLoop key fp opts items rest cIdx db
      ⟨Ev.fetch :: o.evs, o.rest, o.cIdx, o.db⟩
    | some resp :: rest =>
      match resp.block with
      | some blk =>
        if blk.data = [] then
          let o := singleFetchInsertLoop key fp opts items rest cIdx db
          ⟨Ev.fetch :: o.evs, o.rest, o.cIdx, o.db⟩
        else
          let r := insert_data_generic key (fp cIdx) db blk opts
          let o := singleFetchInsertLoop key fp opts items rest (cIdx + 1) r.1
          ⟨Ev.fetch :: Ev.insertCall r.2 :: o.evs, o.rest, o.cIdx, o.db⟩
      | none =>
        let o := singleFetchInsertLoop key fp opts items rest cIdx db
        ⟨Ev.fetch :: o.evs, o.rest, o.cIdx, o.db⟩

/-- Embeds the quotas date loop with explicit ISINs
(`moex_collector.py:360-370,394`): for each date of the inclusive range, one
fetch per ISIN. -/
def quotasDatesIsin (key : Row → List Cell) (fp : Nat → Option Nat)
    (opts : List String) (isins : List String) :
    List String → List (Option ApiResp) → Nat → List Row → LoopOut
  | [], ora, cIdx, db => ⟨[], ora, cIdx, db⟩
  | _date :: dates, ora, cIdx, db =>
    let o1 := singleFetchInsertLoop key fp opts isins ora cIdx db
    let o2 := quotasDatesIsin key fp opts isins dates o1.rest o1.cIdx o1.db
    ⟨o1.evs ++ o2.evs, o2.rest, o2.cIdx, o2.db⟩

/-- Embeds the quotas date loop without explicit ISINs
(`moex_collector.py:371-394`): for each date, one paginated fetch sequence
with `params['start']` reset to 0. -/
def quotasDatesAll (key : Row → List Cell) (fp : Nat → Option Nat)
    (opts : List String) :
    List String → List (Option ApiResp) → Nat → List Row → LoopOut
  | [], ora, cIdx, db => ⟨[], ora, cIdx, db⟩
  | _date :: dates, ora, cIdx, db =>
    let p := pagedLoop key fp opts ora 0 cIdx db
    let o2 := quotasDatesAll key fp opts dates p.rest p.cIdx p.db
    ⟨p.evs ++ o2.evs, o2.rest, o2.cIdx, o2.db⟩

/-- Embeds the bondization per-ISIN loop (`moex_collector.py:404-427`): one
paginated fetch sequence per ISIN, each starting at `start = 0`. -/
def bondizationIsinLoop (key : Row → List Cell) (fp : Nat → Option Nat)
    (opts : List String) :
    List String → List (Option ApiResp) → Nat → List Row → LoopOut
  | [], ora, cIdx, db => ⟨[], ora, cIdx, db⟩
  | _isin :: isins, ora, cIdx, db =>
    let p := pagedLoop key fp opts ora 0 cIdx db
    let o2 := bondizationIsinLoop key fp opts isins p.rest p.cIdx p.db
    ⟨p.evs ++ o2.evs, o2.rest, o2.cIdx, o2.db⟩

/-- The `--table` choices (`moex_collector.py:55`). -/
inductive TableKind where
  | bonds
  | quotas
  | coupons
  | amortizations
  | offers
  deriving DecidableEq, Repr

/-- The `--mode` choices (`moex_collector.py:75`). -/
inductive Mode where
  | clear
  | update
  | overwrite
  deriving DecidableEq, Repr

/-- How the process ends: a plain `return` during setup and a normal
completion both leave exit status 0; `raised` is an uncaught exception
(non-zero process exit status). -/
inductive RunOutcome where
  | exitedEarly
  | finished
  | raised
  deriving DecidableEq, Repr

/-- Truthiness of `args.isin` in Python (`None` and `""` are falsy). -/
def isinGiven : Option String → Bool
  | some s => !(s.isEmpty)
  | none => false

/-- All inputs of one run of `main` (`moex_collector.py:304-461`): the run
parameters, the configuration lookups the run performs, the state of the
external world (HTTP oracle, storage-failure plan, connection success,
initial table contents) and the destination table's unique key. `dates`
stands for the validated inclusive range `[start_date..end_date]` produced by
`get_date_range` (its elements only drive the iteration count).
`baseUrlPresent` and `tablesEntry` model `config.get('API', 'base_url')` and
`config.get('TABLES', args.table)`, which raise `NoOptionError` when the
option is missing (`load_config` validates sections, not options).
`truncOk` says whether the `TRUNCATE` issued by `clear_table` succeeds (on
failure `clear_table` catches the error, rolls back and returns normally).
`failPlan n` is the row index at which the n-th `insert_data_generic` call of
the run hits a storage error (`none` = that call commits). -/
structure RunCtx where
  tableKind : TableKind
  mode : Mode
  isinArg : Option String
  dates : List String
  options : List String
  baseUrlPresent : Bool
  tablesEntry : Option String
  connOk : Bool
  truncOk : Bool
  key : Row → List Cell
  failPlan : Nat → Option Nat
  oracle : List (Option ApiResp)
  db0 : List Row

/-- Result of a run: the chronological trace of observable events, the final
destination-table state, and how the process ended. -/
structure RunResult where
  events : List Ev
  db : List Row
  outcome : RunOutcome
  deriving DecidableEq, Repr

/-- Events and final state of the table-kind dispatch. -/
structure ProcOut where
  evs : List Ev
  db : List Row

/-- The `--table` dispatch of `main` (`moex_collector.py:337-450`), entered
with the post-truncation table state `db1` and the oracle positioned after
the ISIN-enumeration fetches (if any). In the bonds branch without explicit
ISINs, `securities_data` is a list of rows, so the dict-shape tests
`'securities' in securities_data` / `'columns' in securities_data` compare
the string against row lists and are always false: whether the list is empty
("Failed to fetch") or not ("Unexpected data structure"), nothing is
inserted. The wildcard branch covers coupons/amortizations/offers
(`args.table in ['coupons', 'amortizations', 'offers']`); argparse restricts
`--table` to the five kinds, so the final `else` of the source is dead. -/
def processKind (ctx : RunCtx) (isins : List String) (ora : List (Option ApiResp))
    (db1 : List Row) : ProcOut :=
  match ctx.tableKind with
  | .bonds =>
    if isinGiven ctx.isinArg then
      let o := singleFetchInsertLoop ctx.key ctx.failPlan ctx.options isins ora 0 db1
      ⟨o.evs, o.db⟩
    else
      let s := getAllSecuritiesLoop ora 0
      ⟨s.starts.map (fun _ => Ev.fetch), db1⟩
  | .quotas =>
    if isinGiven ctx.isinArg then
      let o := quotasDatesIsin ctx.key ctx.failPlan ctx.options isins ctx.dates ora 0 db1
      ⟨o.evs, o.db⟩
    else
      let o := quotasDatesAll ctx.key ctx.failPlan ctx.options ctx.dates ora 0 db1
      ⟨o.evs, o.db⟩
  | _ =>
    if isinGiven ctx.isinArg then
      let o := bondizationIsinLoop ctx.key ctx.failPlan ctx.options isins ora 0 db1
      ⟨o.evs, o.db⟩
    else
      let p := pagedLoop ctx.key ctx.failPlan ctx.options ora 0 0 db1
      ⟨p.evs, p.db⟩

/-- The part of `main` from `conn = get_db_connection(config)` on
(`moex_collector.py:320-458`). `evs0` are the events already emitted by the
ISIN-determination phase and `ora` is the oracle positioned after it. The
lookups `config.get('API', 'base_url')` (line 324) and
`config.get('TABLES', args.table)` (line 326) sit between the successful
connection and the `try`/`finally` that closes it, so an exception there
ends the run with the connection still open; every path that enters the
`try` block appends `connClose` (the `finally`). In clear mode `clear_table`
runs and `main` returns; in overwrite mode `clear_table` runs and processing
follows. -/
def runWithIsins (ctx : RunCtx) (isins : List String) (evs0 : List Ev)
    (ora : List (Option ApiResp)) : RunResult :=
  if !ctx.connOk then ⟨evs0, ctx.db0, .exitedEarly⟩
  else
    let evs1 := evs0 ++ [Ev.connOpen]
    if !ctx.baseUrlPresent then ⟨evs1, ctx.db0, .raised⟩
    else
      match ctx.tablesEntry with
      | none => ⟨evs1, ctx.db0, .raised⟩
      | some _tableName =>
        match ctx.mode with
        | .clear =>
          ⟨evs1 ++ [Ev.truncate, Ev.connClose],
           if ctx.truncOk then [] else ctx.db0, .finished⟩
        | .overwrite =>
          let db1 := if ctx.truncOk then [] else ctx.db0
          let p := processKind ctx isins ora db1
          ⟨evs1 ++ Ev.truncate :: p.evs ++ [Ev.connClose], p.db, .finished⟩
        | .update =>
          let p := processKind ctx isins ora ctx.db0
          ⟨evs1 ++ p.evs ++ [Ev.connClose], p.db, .finished⟩

/-- Embeds `main` (`moex_collector.py:304-461`) for a run whose command-line
arguments and configuration sections already passed the early validation
(`load_config`, `parse_arguments` and `get_date_range` all `sys.exit(1)`
before anything here is observable). With `--isin` given, `get_isin_list`
just splits the argument (no fetch). Without it, `get_isin_list` calls
`get_all_securities` — which reads `config.get('API', 'base_url')`, raising
before the connection is opened when the option is missing — and then,
because `get_all_securities` returns a list of rows while the extraction
code expects a dict (`'securities' in all_securities_data` compares the
string against row lists, always false), `columns` stays `None` and the ISIN
list is always empty, so `main` returns at `"No ISINs found or specified."`
before any database work. -/
def mainRun (ctx : RunCtx) : RunResult :=
  if isinGiven ctx.isinArg then
    runWithIsins ctx (splitIsins ((ctx.isinArg).getD "")) [] ctx.oracle
  else
    if !ctx.baseUrlPresent then ⟨[], ctx.db0, .raised⟩
    else
      let s := getAllSecuritiesLoop ctx.oracle 0
      let evs := s.starts.map (fun _ => Ev.fetch)
      let isins : List String := []
      if isins.isEmpty then ⟨evs, ctx.db0, .exitedEarly⟩
      else runWithIsins ctx isins evs s.rest

/-- A response carrying only the synthetic cursor `(idx, 250, 100)` of claim
C5's test sequence (the main loops read the cursor independently of the data
block). -/
def c5Resp (idx : Nat) : ApiResp := ⟨none, some ⟨idx, 250, 100⟩⟩

/-- The synthetic response sequence of claim C5:
cursors `(0,250,100) -> (100,250,100) -> (200,250,100)`. -/
def c5Oracle : List (Option ApiResp) :=
  [some (c5Resp 0), some (c5Resp 100), some (c5Resp 200)]

/-- Claim C5's cursor sequence for `get_all_securities`, with nonempty data
blocks (that loop stops early on an empty block). -/
def c5SecResp (idx : Nat) : ApiResp :=
  ⟨some ⟨["ISIN"], [[some "RU1"]]⟩, some ⟨idx, 250, 100⟩⟩

/-- Three-response oracle for the `get_all_securities` variant of claim C5. -/
def c5SecOracle : List (Option ApiResp) :=
  [some (c5SecResp 0), some (c5SecResp 100), some (c5SecResp 200)]

/-- A Mode=clear run without an explicit ISIN set (claim C1's universally
quantified scenario at a concrete input): the ISIN-enumeration fetch happens
before the mode is ever consulted. -/
def ctxC1 : RunCtx where
  tableKind := TableKind.bonds
  mode := Mode.clear
  isinArg := none
  dates := []
  options := ["secid"]
  baseUrlPresent := true
  tablesEntry := some "bonds"
  connOk := true
  truncOk := true
  key := fun r => r
  failPlan := fun _ => none
  oracle := []
  db0 := [[some "old"]]

/-- A Mode=clear run with an explicit ISIN set on a non-empty table. -/
def ctxC1w : RunCtx where
  tableKind := TableKind.quotas
  mode := Mode.clear
  isinArg := some "RU000A0JX0J2"
  dates := ["2024-01-01"]
  options := ["secid"]
  baseUrlPresent := true
  tablesEntry := some "quotes"
  connOk := true
  truncOk := true
  key := fun r => r
  failPlan := fun _ => none
  oracle := []
  db0 := [[some "old"]]

/-- A run whose single Page's insert hits a storage error at its first row
(claim C3's scenario at a concrete input). -/
def ctxC3 : RunCtx where
  tableKind := TableKind.offers
  mode := Mode.update
  isinArg := some "A"
  dates := []
  options := ["secid"]
  baseUrlPresent := true
  tablesEntry := some "offers"
  connOk := true
  truncOk := true
  key := fun r => r
  failPlan := fun _ => some 0
  oracle := [some ⟨some ⟨["SECID"], [[some "r1"]]⟩, none⟩]
  db0 := []

/-- A three-Page run whose second Page's insert fails: the partial-failure
containment scenario (first and third Pages must stay committed). -/
def ctxC3pages : RunCtx where
  tableKind := TableKind.offers
  mode := Mode.update
  isinArg := some "A"
  dates := []
  options := ["secid"]
  baseUrlPresent := true
  tablesEntry := some "offers"
  connOk := true
  truncOk := true
  key := fun r => r
  failPlan := fun n => if n = 1 then some 0 else none
  oracle :=
    [some ⟨some ⟨["SECID"], [[some "r1"]]⟩, some ⟨0, 250, 100⟩⟩,
     some ⟨some ⟨["SECID"], [[some "r2"]]⟩, some ⟨100, 250, 100⟩⟩,
     some ⟨some ⟨["SECID"], [[some "r3"]]⟩, some ⟨200, 250, 100⟩⟩]
  db0 := []

/-- A run whose `[TABLES]` section lacks the entry for the chosen table:
`config.get('TABLES', args.table)` raises after the connection is opened and
before the `try`/`finally`. -/
def ctxC4 : RunCtx where
  tableKind := TableKind.quotas
  mode := Mode.update
  isinArg := some "AAA"
  dates := ["2024-01-01"]
  options := ["secid"]
  baseUrlPresent := true
  tablesEntry := none
  connOk := true
  truncOk := true
  key := fun r => r
  failPlan := fun _ => none
  oracle := []
  db0 := []

/-- A well-configured run used as the claim C4 witness input. -/
def ctxC4w : RunCtx where
  tableKind := TableKind.quotas
  mode := Mode.update
  isinArg := some "AAA"
  dates := []
  options := ["secid"]
  baseUrlPresent := true
  tablesEntry := some "quotes"
  connOk := true
  truncOk := true
  key := fun r => r
  failPlan := fun _ => none
  oracle := []
  db0 := []

/-- A Mode=update run over three pages (one failing) on a non-empty initial
table, used as the claim C9 witness input. -/
def ctxC9w : RunCtx where
  tableKind := TableKind.coupons
  mode := Mode.update
  isinArg := some "B"
  dates := []
  options := ["secid"]
  baseUrlPresent := true
  tablesEntry := some "coupons"
  connOk := true
  truncOk := true
  key := fun r => r
  failPlan := fun n => if n = 1 then some 0 else none
  oracle :=
    [some ⟨some ⟨["SECID"], [[some "k1"]]⟩, some ⟨0, 250, 100⟩⟩,
     some ⟨some ⟨["SECID"], [[some "k2"]]⟩, some ⟨100, 250, 100⟩⟩,
     some ⟨some ⟨["SECID"], [[some "k3"]]⟩, some ⟨200, 250, 100⟩⟩]
  db0 := [[some "pre"]]

/-! Helper lemmas about the column mapping and column resolution. -/

lemma lookup_mem {a b : String} : ∀ {l : List (String × String)},
    List.lookup a l = some b → (a, b) ∈ l
  | [], h => by simp at h
  | (k, v) :: es, h => by
    by_cases hk : a = k
    · subst hk
      simp [List.lookup] at h
      simp [h]
    · have hbeq : (a == k) = false := by simp [hk]
      simp only [List.lookup, hbeq] at h
      exact List.mem_cons_of_mem _ (lookup_mem h)

lemma assocSet_mem {k v : String} : ∀ {m : List (String × String)} {k0 v0 : String},
    (k, v) ∈ assocSet m k0 v0 → (k, v) ∈ m ∨ (k = k0 ∧ v = v0) := by
  intro m
  induction m with
  | nil =>
    intro k0 v0 h
    simp [assocSet] at h
    exact Or.inr h
  | cons e rest ih =>
    intro k0 v0 h
    obtain ⟨k', v'⟩ := e
    by_cases he : k' = k0
    · simp [assocSet, he] at h
      rcases h with h1 | h1
      · exact Or.inr h1
      · exact Or.inl (List.mem_cons_of_mem _ h1)
    · simp [assocSet, he] at h
      rcases h with h1 | h1
      · exact Or.inl (by simp [h1])
      · rcases ih h1 with h2 | h2
        · exact Or.inl (List.mem_cons_of_mem _ h2)
        · exact Or.inr h2

lemma foldl_assoc_mem {k v : String} : ∀ (opts : List String) (m : List (String × String)),
    (k, v) ∈ List.foldl (fun acc db => assocSet acc (pyUpper db) db) m opts →
    (k, v) ∈ m ∨ (v ∈ opts ∧ k = pyUpper v)
  | [], _, h => Or.inl h
  | o :: os, m, h => by
    rw [List.foldl_cons] at h
    rcases foldl_assoc_mem os (assocSet m (pyUpper o) o) h with h2 | h2
    · rcases assocSet_mem h2 with h3 | h3
      · exact Or.inl h3
      · refine Or.inr ⟨?_, ?_⟩
        · rw [h3.2]
          exact List.mem_cons_self _ _
        · rw [h3.1, h3.2]
    · exact Or.inr ⟨List.mem_cons_of_mem _ h2.1, h2.2⟩

lemma get_column_mapping_spec {opts : List String} {k v : String}
    (h : List.lookup k (get_column_mapping opts) = some v) :
    k = pyUpper v ∧ v ∈ opts := by
  rcases foldl_assoc_mem opts [] (lookup_mem h) with h2 | h2
  · simp at h2
  · exact ⟨h2.2, h2.1⟩

lemma resolveAux_mem {mapping : List (String × String)} {d : String} {i : Nat} :
    ∀ (cols : List String) (k : Nat),
    ((d, i) ∈ resolveAux mapping cols k ↔
      ∃ j c, i = k + j ∧ cols.get? j = some c ∧ List.lookup c mapping = some d)
  | [], k => by simp [resolveAux]
  | c :: cs, k => by
    constructor
    · intro h
      rw [resolveAux] at h
      rcases hc : List.lookup c mapping with _ | d0 <;> rw [hc] at h
      · rcases (resolveAux_mem cs (k + 1)).1 h with ⟨j, c', hj, hg, hl⟩
        exact ⟨j + 1, c', by omega, by simpa using hg, hl⟩
      · rcases List.mem_cons.1 h with h1 | h1
        · have h2 : d = d0 ∧ i = k := by simpa using h1
          exact ⟨0, c, by omega, by simp, by rw [hc, h2.1]⟩
        · rcases (resolveAux_mem cs (k + 1)).1 h1 with ⟨j, c', hj, hg, hl⟩
          exact ⟨j + 1, c', by omega, by simpa using hg, hl⟩
    · rintro ⟨j, c', hj, hg, hl⟩
      cases j with
      | zero =>
        have hc' : c' = c := by simpa using hg.symm
        subst hc'
        rw [resolveAux, hl]
        have hik : i = k := by omega
        simp [hik]
      | succ j' =>
        have hg' : cs.get? j' = some c' := by simpa using hg
        have hij : i = k + 1 + j' := by omega
        have hmem := (resolveAux_mem cs (k + 1)).2 ⟨j', c', hij, hg', hl⟩
        rw [resolveAux]
        rcases hc : List.lookup c mapping with _ | d0
        · exact hmem
        · exact List.mem_cons_of_mem _ hmem

lemma resolveAux_lb {mapping : List (String × String)} :
    ∀ (cols : List String) (k : Nat) (p : String × Nat),
    p ∈ resolveAux mapping cols k → k ≤ p.2
  | [], k, p, h => by simp [resolveAux] at h
  | c :: cs, k, p, h => by
    rw [resolveAux] at h
    rcases hc : List.lookup c mapping with _ | d0 <;> rw [hc] at h
    · exact le_trans (Nat.le_succ k) (resolveAux_lb cs (k + 1) p h)
    · rcases List.mem_cons.1 h with h1 | h1
      · subst h1
        exact le_refl k
      · exact le_trans (Nat.le_succ k) (resolveAux_lb cs (k + 1) p h1)

lemma resolveAux_pairwise {mapping : List (String × String)} :
    ∀ (cols : List String) (k : Nat),
    (resolveAux mapping cols k).Pairwise (fun p q => p.2 < q.2)
  | [], k => by simp [resolveAux]
  | c :: cs, k => by
    rw [resolveAux]
    rcases hc : List.lookup c mapping with _ | d0
    · exact resolveAux_pairwise cs (k + 1)
    · refine List.Pairwise.cons ?_ (resolveAux_pairwise cs (k + 1))
      intro q hq
      have hle := resolveAux_lb cs (k + 1) q hq
      show k < q.2
      omega

/-- Claim C2, counterexample to the claim as stated: with the single config
option `secid`, the mapping is `{"SECID" ↦ "secid"}`; the page column
`"secid"` matches that entry case-insensitively (its upper form is exactly
the key), yet `resolveColumns` selects nothing, because the code's membership
test is an exact comparison of the page column name against the upper-cased
key. The case-insensitive selection described by the claim would select it. -/
theorem C2_counterexample :
    get_column_mapping ["secid"] = [("SECID", "secid")] ∧
    pyUpper "secid" = "SECID" ∧
    resolveColumns (get_column_mapping ["secid"]) ["secid"] = [] ∧
    resolveColumnsSpecCI (get_column_mapping ["secid"]) ["secid"] 0 = [("secid", 0)] :=
  ⟨rfl, rfl, rfl, rfl⟩

/-- Claim C2 (amended): column resolution selects exactly those page columns
whose external name equals — by exact, case-sensitive comparison — the
upper-cased destination column name of a mapping entry, in page order,
pairing each with the mapped destination name and its page-column index;
page columns with no such exact match are silently dropped without error
(the resolution is total). The mapping itself is case-insensitive only on
the configuration side: its key is the upper-normalization of the declared
destination column name. -/
theorem C2_theorem :
    (∀ (mapping : List (String × String)) (cols : List String) (d : String) (i : Nat),
      ((d, i) ∈ resolveColumns mapping cols ↔
        ∃ c, cols.get? i = some c ∧ List.lookup c mapping = some d)) ∧
    (∀ (mapping : List (String × String)) (cols : List String),
      (resolveColumns mapping cols).Pairwise (fun p q => p.2 < q.2)) ∧
    (∀ (opts : List String) (c d : String),
      List.lookup c (get_column_mapping opts) = some d → c = pyUpper d ∧ d ∈ opts) := by
  refine ⟨?_, ?_, ?_⟩
  · intro mapping cols d i
    rw [resolveColumns, resolveAux_mem]
    constructor
    · rintro ⟨j, c, hj, hg, hl⟩
      refine ⟨c, ?_, hl⟩
      have hij : i = j := by omega
      rw [hij]
      exact hg
    · rintro ⟨c, hg, hl⟩
      exact ⟨i, c, by omega, hg, hl⟩
  · intro mapping cols
    exact resolveAux_pairwise cols 0
  · intro opts c d h
    exact get_column_mapping_spec h

/-- Witness for `C2_theorem` at a concrete input: the mapping built from the
option `secid` answers the lookup of `"SECID"` with `secid`, whose upper form
is the key. -/
theorem C2_witness :
    "SECID" = pyUpper "secid" ∧ "secid" ∈ ["secid"] :=
  C2_theorem.2.2 ["secid"] "SECID" "secid" rfl

/-- Claim C8 (confirmed): building the destination row is total — it never
fails on short rows. Its length always equals the number of resolved
positions; a resolved position whose source index is beyond the row's length
receives NULL (`none`); an in-range position receives the row's value at its
source index. -/
theorem C8_theorem :
    (∀ (row : Row) (idxs : List Nat), (projectRow row idxs).length = idxs.length) ∧
    (∀ (row : Row) (idxs : List Nat) (k i : Nat), idxs.get? k = some i →
      row.length ≤ i → (projectRow row idxs).get? k = some none) ∧
    (∀ (row : Row) (idxs : List Nat) (k i : Nat), idxs.get? k = some i →
      i < row.length → (projectRow row idxs).get? k = row.get? i) := by
  refine ⟨?_, ?_, ?_⟩
  · intro row idxs
    exact List.length_map _ _
  · intro row idxs k i hk hlen
    rw [projectRow, List.get?_eq_getElem?, List.getElem?_map]
    rw [← List.get?_eq_getElem?, hk]
    simp only [Option.map_some']
    rw [if_neg (by omega : ¬ i < row.length)]
  · intro row idxs k i hk hlt
    rw [projectRow, List.get?_eq_getElem?, List.getElem?_map]
    rw [← List.get?_eq_getElem?, hk]
    simp only [Option.map_some', if_pos hlt]
    rw [List.getD_eq_getElem?_getD, List.getElem?_eq_getElem hlt]
    rw [List.get?_eq_getElem?, List.getElem?_eq_getElem hlt]
    rfl

/-- Witness for `C8_theorem`: a one-cell row projected at indices `[0, 5]`
yields the cell at 0 and NULL at the out-of-range index 5. -/
theorem C8_witness :
    (projectRow [some "a"] [0, 5]).get? 1 = some none ∧
    (projectRow [some "a"] [0, 5]).get? 0 = [(some "a" : Cell)].get? 0 :=
  ⟨C8_theorem.2.1 [some "a"] [0, 5] 1 5 rfl (by decide),
   C8_theorem.2.2 [some "a"] [0, 5] 0 0 rfl (by decide)⟩


/-! Helper lemmas about `insertRowDb`, `execRows`, `insert_data_generic` and
the independence of pagination from storage outcomes. -/

lemma insertRowDb_extend (key : Row → List Cell) (db : List Row) (r : Row) :
    ∃ ext, (insertRowDb key db r).1 = db ++ ext := by
  unfold insertRowDb
  split
  · exact ⟨[], by simp⟩
  · exact ⟨[r], rfl⟩

lemma insertRowDb_key_mem (key : Row → List Cell) (db : List Row) (r : Row) :
    key r ∈ ((insertRowDb key db r).1).map key := by
  unfold insertRowDb
  split
  · rename_i h
    rcases List.any_eq_true.1 h with ⟨r2, hr2, hk⟩
    exact List.mem_map.2 ⟨r2, hr2, of_decide_eq_true hk⟩
  · exact List.mem_map.2 ⟨r, by simp, rfl⟩

lemma insertRowDb_mem_eq {key : Row → List Cell} {db : List Row} {r : Row}
    (h : key r ∈ db.map key) : insertRowDb key db r = (db, 0) := by
  rcases List.mem_map.1 h with ⟨r2, hr2, hk⟩
  unfold insertRowDb
  rw [if_pos (List.any_eq_true.2 ⟨r2, hr2, decide_eq_true hk⟩)]

lemma execRows_fail_cases {key : Row → List Cell} {failAt : Option Nat} {idxs : List Nat} :
    ∀ (rows db : List Row) (k : Nat),
    execRows key failAt idxs rows db k = none ∨
    execRows key failAt idxs rows db k = execRows key none idxs rows db k
  | [], _, _ => Or.inr rfl
  | r :: rs, db, k => by
    rw [execRows, execRows]
    by_cases hf : failAt = some k
    · rw [if_pos hf]
      exact Or.inl rfl
    · rw [if_neg hf, if_neg (by simp : ¬ (none : Option Nat) = some k)]
      rcases execRows_fail_cases rs (insertRowDb key db (projectRow r idxs)).1 (k + 1)
        with h | h
      · rw [h]
        exact Or.inl rfl
      · rw [h]
        exact Or.inr rfl

lemma execRows_none_extend {key : Row → List Cell} {idxs : List Nat} :
    ∀ (rows db : List Row) (k : Nat),
    ∃ ext n, execRows key none idxs rows db k = some (db ++ ext, n)
  | [], db, k => ⟨[], 0, by simp [execRows]⟩
  | r :: rs, db, k => by
    obtain ⟨ext, n, ih⟩ := execRows_none_extend rs (insertRowDb key db (projectRow r idxs)).1 (k + 1)
    obtain ⟨e, he⟩ := insertRowDb_extend key db (projectRow r idxs)
    rw [execRows, if_neg (by simp : ¬ (none : Option Nat) = some k), ih]
    refine ⟨e ++ ext, (insertRowDb key db (projectRow r idxs)).2 + n, ?_⟩
    rw [he, List.append_assoc]

lemma execRows_none_isSome {key : Row → List Cell} {idxs : List Nat}
    (rows db : List Row) (k : Nat) :
    ∃ q, execRows key none idxs rows db k = some q := by
  obtain ⟨ext, n, h⟩ := @execRows_none_extend key idxs rows db k
  exact ⟨(db ++ ext, n), h⟩

lemma execRows_none_covers {key : Row → List Cell} {idxs : List Nat} :
    ∀ (rows db : List Row) (k : Nat) (r : Row), r ∈ rows →
    ∀ q, execRows key none idxs rows db k = some q →
    key (projectRow r idxs) ∈ q.1.map key
  | [], _, _, _, hr, _, _ => absurd hr (List.not_mem_nil _)
  | r0 :: rs, db, k, r, hr, q, hq => by
    rw [execRows, if_neg (by simp : ¬ (none : Option Nat) = some k)] at hq
    obtain ⟨ext, n, hrec⟩ :=
      @execRows_none_extend key idxs rs
        (insertRowDb key db (projectRow r0 idxs)).1 (k + 1)
    rw [hrec] at hq
    rcases List.mem_cons.1 hr with h1 | h1
    · subst h1
      have hmem := insertRowDb_key_mem key db (projectRow r idxs)
      have hq1 : q.1 = (insertRowDb key db (projectRow r idxs)).1 ++ ext := by
        have := congrArg (fun o => Option.map Prod.fst o) hq
        simpa using this.symm
      rw [hq1, List.map_append]
      exact List.mem_append_left _ hmem
    · have hcov := execRows_none_covers rs (insertRowDb key db (projectRow r0 idxs)).1 (k + 1) r h1
        ((insertRowDb key db (projectRow r0 idxs)).1 ++ ext, n) hrec
      have hq1 : q.1 = (insertRowDb key db (projectRow r0 idxs)).1 ++ ext := by
        have := congrArg (fun o => Option.map Prod.fst o) hq
        simpa using this.symm
      rw [hq1]
      simpa using hcov

lemma execRows_none_fixpoint {key : Row → List Cell} {idxs : List Nat} :
    ∀ (rows db : List Row) (k : Nat),
    (∀ r ∈ rows, key (projectRow r idxs) ∈ db.map key) →
    execRows key none idxs rows db k = some (db, 0)
  | [], db, k, _ => by simp [execRows]
  | r :: rs, db, k, h => by
    have h0 : insertRowDb key db (projectRow r idxs) = (db, 0) :=
      insertRowDb_mem_eq (h r (by simp))
    rw [execRows, if_neg (by simp : ¬ (none : Option Nat) = some k), h0]
    rw [execRows_none_fixpoint rs db (k + 1) (fun r2 hr2 => h r2 (List.mem_cons_of_mem _ hr2))]
    rfl

lemma insert_eq_of_execCond {key : Row → List Cell} {failAt : Option Nat}
    {db : List Row} {blk : Block} {opts : List String} (h : execCond opts blk) :
    insert_data_generic key failAt db blk opts =
      match execRows key failAt (blockIdxs opts blk) blk.data db 0 with
      | some q => (q.1, InsertResult.ok q.2)
      | none => (db, InsertResult.rolledBack) := by
  obtain ⟨h1, h2, h3, h4⟩ := h
  simp [insert_data_generic, h1, h2, h3, h4, blockIdxs]

lemma insert_state_of_not_execCond {key : Row → List Cell} {failAt : Option Nat}
    {db : List Row} {blk : Block} {opts : List String} (h : ¬ execCond opts blk) :
    insert_data_generic key failAt db blk opts = insert_data_generic key none db blk opts ∧
    (insert_data_generic key failAt db blk opts).1 = db := by
  unfold insert_data_generic
  by_cases h1 : blk.data = []
  · simp [h1]
  by_cases h2 : blk.columns = []
  · simp [h1, h2]
  by_cases h3 : get_column_mapping opts = []
  · simp [h1, h2, h3]
  by_cases h4 : resolveColumns (get_column_mapping opts) blk.columns = []
  · simp [h1, h2, h3, h4]
  · exact absurd ⟨h1, h2, h3, h4⟩ h

lemma insert_fail_cases (key : Row → List Cell) (failAt : Option Nat)
    (db : List Row) (blk : Block) (opts : List String) :
    insert_data_generic key failAt db blk opts = (db, InsertResult.rolledBack) ∨
    insert_data_generic key failAt db blk opts = insert_data_generic key none db blk opts := by
  by_cases hc : execCond opts blk
  · rw [insert_eq_of_execCond hc, @insert_eq_of_execCond key none db blk opts hc]
    rcases @execRows_fail_cases key failAt (blockIdxs opts blk) blk.data db 0 with h | h
    · rw [h]
      exact Or.inl rfl
    · rw [h]
      exact Or.inr rfl
  · exact Or.inr (insert_state_of_not_execCond hc).1

lemma insert_none_extend (key : Row → List Cell) (db : List Row) (blk : Block)
    (opts : List String) :
    ∃ ext, (insert_data_generic key none db blk opts).1 = db ++ ext := by
  by_cases hc : execCond opts blk
  · rw [insert_eq_of_execCond hc]
    obtain ⟨ext, n, h⟩ :=
      @execRows_none_extend key (blockIdxs opts blk) blk.data db 0
    rw [h]
    exact ⟨ext, rfl⟩
  · exact ⟨[], by rw [(insert_state_of_not_execCond hc).2, List.append_nil]⟩

lemma insert_none_covers {key : Row → List Cell} {db : List Row} {blk : Block}
    {opts : List String} (hc : execCond opts blk) {r : Row} (hr : r ∈ blk.data) :
    key (projectRow r (blockIdxs opts blk)) ∈
      ((insert_data_generic key none db blk opts).1).map key := by
  rw [insert_eq_of_execCond hc]
  obtain ⟨q, hq⟩ := @execRows_none_isSome key (blockIdxs opts blk) blk.data db 0
  rw [hq]
  exact execRows_none_covers blk.data db 0 r hr q hq

lemma insert_none_fixpoint {key : Row → List Cell} {db : List Row} {blk : Block}
    {opts : List String}
    (h : execCond opts blk → ∀ r ∈ blk.data,
      key (projectRow r (blockIdxs opts blk)) ∈ db.map key) :
    (insert_data_generic key none db blk opts).1 = db := by
  by_cases hc : execCond opts blk
  · rw [insert_eq_of_execCond hc, execRows_none_fixpoint blk.data db 0 (h hc)]
  · exact (insert_state_of_not_execCond hc).2

lemma loadBlocks_extend (key : Row → List Cell) (opts : List String) :
    ∀ (bs : List Block) (db : List Row), ∃ ext, loadBlocks key opts bs db = db ++ ext
  | [], db => ⟨[], by simp [loadBlocks]⟩
  | b :: bs, db => by
    obtain ⟨e1, he1⟩ := insert_none_extend key db b opts
    obtain ⟨e2, he2⟩ := loadBlocks_extend key opts bs (insert_data_generic key none db b opts).1
    rw [loadBlocks, he2, he1]
    exact ⟨e1 ++ e2, by rw [List.append_assoc]⟩

lemma loadBlocks_covers {key : Row → List Cell} {opts : List String} :
    ∀ (bs : List Block) (db : List Row) (b : Block), b ∈ bs → execCond opts b →
    ∀ r ∈ b.data,
    key (projectRow r (blockIdxs opts b)) ∈ (loadBlocks key opts bs db).map key
  | [], _, _, hb, _, _, _ => absurd hb (List.not_mem_nil _)
  | b0 :: bs, db, b, hb, hc, r, hr => by
    rcases List.mem_cons.1 hb with h1 | h1
    · subst h1
      have hmem := @insert_none_covers key db b opts hc r hr
      obtain ⟨ext, hext⟩ :=
        loadBlocks_extend key opts bs (insert_data_generic key none db b opts).1
      rw [loadBlocks, hext, List.map_append]
      exact List.mem_append_left _ hmem
    · rw [loadBlocks]
      exact loadBlocks_covers bs (insert_data_generic key none db b0 opts).1 b h1 hc r hr

lemma loadBlocks_fixpoint {key : Row → List Cell} {opts : List String} :
    ∀ (bs : List Block) (db : List Row),
    (∀ b ∈ bs, execCond opts b → ∀ r ∈ b.data,
      key (projectRow r (blockIdxs opts b)) ∈ db.map key) →
    loadBlocks key opts bs db = db
  | [], _, _ => rfl
  | b :: bs, db, h => by
    have h0 : (insert_data_generic key none db b opts).1 = db :=
      insert_none_fixpoint (fun hc => h b (by simp) hc)
    rw [loadBlocks, h0]
    exact loadBlocks_fixpoint bs db (fun b2 hb2 => h b2 (List.mem_cons_of_mem _ hb2))

lemma pagedLoop_starts_indep {key key' : Row → List Cell} {fp fp' : Nat → Option Nat}
    {opts opts' : List String} :
    ∀ (ora : List (Option ApiResp)) (start cIdx cIdx' : Nat) (db db' : List Row),
    (pagedLoop key fp opts ora start cIdx db).starts =
    (pagedLoop key' fp' opts' ora start cIdx' db').starts
  | [], _, _, _, _, _ => rfl
  | none :: _, _, _, _, _, _ => rfl
  | some resp :: rest, start, cIdx, cIdx', db, db' => by
    simp only [pagedLoop]
    rcases hc : resp.cursor with _ | c
    · rfl
    · by_cases hlt : start + c.pagesize < c.total
      · simp only [if_pos hlt]
        exact congrArg (start :: ·) (pagedLoop_starts_indep rest _ _ _ _ _)
      · simp only [if_neg hlt]

/-- Claim C6 (confirmed): one Page's insert is atomic. Every
`insert_data_generic` call either leaves the table state exactly as it was
and reports the rollback, or coincides with the failure-free insert of the
whole Page (all of the Page's rows committed in the one transaction); and the
pagination issues exactly the same requests whatever the storage outcomes, so
a failing Page never aborts the iteration — processing continues with the
next unit. -/
theorem C6_theorem :
    (∀ (key : Row → List Cell) (failAt : Option Nat) (db : List Row) (blk : Block)
      (opts : List String),
      insert_data_generic key failAt db blk opts = (db, InsertResult.rolledBack) ∨
      insert_data_generic key failAt db blk opts = insert_data_generic key none db blk opts) ∧
    (∀ (key key' : Row → List Cell) (fp fp' : Nat → Option Nat) (opts opts' : List String)
      (ora : List (Option ApiResp)) (start cIdx cIdx' : Nat) (db db' : List Row),
      (pagedLoop key fp opts ora start cIdx db).starts =
        (pagedLoop key' fp' opts' ora start cIdx' db').starts) :=
  ⟨insert_fail_cases, fun _ _ _ _ _ _ ora start cIdx cIdx' db db' =>
    pagedLoop_starts_indep ora start cIdx cIdx' db db'⟩

/-- Claim C7 (confirmed): insertion is idempotent. A row whose unique key is
already present in the table is silently skipped — the call is total (no
error), the state is unchanged and the affected count is 0 — and loading the
same Pages a second time against the resulting table is the identity, so the
second run adds zero rows and ends with the same final row count. -/
theorem C7_theorem :
    (∀ (key : Row → List Cell) (db : List Row) (r r' : Row),
      r' ∈ db → key r' = key r → insertRowDb key db r = (db, 0)) ∧
    (∀ (key : Row → List Cell) (opts : List String) (pages : List Block) (db : List Row),
      loadBlocks key opts pages (loadBlocks key opts pages db) = loadBlocks key opts pages db) := by
  constructor
  · intro key db r r' hmem hkey
    exact insertRowDb_mem_eq (List.mem_map.2 ⟨r', hmem, hkey⟩)
  · intro key opts pages db
    exact loadBlocks_fixpoint pages (loadBlocks key opts pages db)
      (fun b hb hc r hr => loadBlocks_covers pages db b hb hc r hr)

/-- Witness for `C7_theorem`: re-inserting the single row already in the
table leaves it unchanged and affects zero rows. -/
theorem C7_witness :
    insertRowDb (fun r => r) [[some "x"]] [some "x"] = ([[some "x"]], 0) :=
  C7_theorem.1 (fun r => r) [[some "x"]] [some "x"] [some "x"] (by simp) rfl


/-! Helper lemmas about the request traces of the pagination loops. -/

lemma pagedLoop_starts_head {key : Row → List Cell} {fp : Nat → Option Nat}
    {opts : List String} :
    ∀ (ora : List (Option ApiResp)) (start cIdx : Nat) (db : List Row),
    ∃ t, (pagedLoop key fp opts ora start cIdx db).starts = start :: t
  | [], _, _, _ => ⟨[], rfl⟩
  | none :: _, _, _, _ => ⟨[], rfl⟩
  | some resp :: rest, start, cIdx, db => by
    simp only [pagedLoop]
    rcases hc : resp.cursor with _ | c
    · exact ⟨[], rfl⟩
    · by_cases hlt : start + c.pagesize < c.total
      · simp only [if_pos hlt]
        exact ⟨_, rfl⟩
      · simp only [if_neg hlt]
        exact ⟨[], rfl⟩

lemma pagedLoop_starts_len {key : Row → List Cell} {fp : Nat → Option Nat}
    {opts : List String} :
    ∀ (ora : List (Option ApiResp)) (start cIdx : Nat) (db : List Row),
    (pagedLoop key fp opts ora start cIdx db).starts.length ≤ ora.length + 1
  | [], _, _, _ => by simp [pagedLoop]
  | none :: _, _, _, _ => by simp [pagedLoop]
  | some resp :: rest, start, cIdx, db => by
    simp only [pagedLoop]
    rcases hc : resp.cursor with _ | c
    · simp
    · by_cases hlt : start + c.pagesize < c.total
      · simp only [if_pos hlt]
        set s := pageInsertStep key (fp cIdx) opts db resp with hs
        have hrec := @pagedLoop_starts_len key fp opts rest
          (start + c.pagesize) (cIdx + s.2.1) s.1
        show ((start ::
          (pagedLoop key fp opts rest (start + c.pagesize) (cIdx + s.2.1) s.1).starts)).length ≤
            (some resp :: rest).length + 1
        rw [List.length_cons, List.length_cons]
        omega
      · simp only [if_neg hlt]
        simp

lemma pagedLoop_starts_chain {key : Row → List Cell} {fp : Nat → Option Nat}
    {opts : List String} :
    ∀ (ora : List (Option ApiResp)) (start cIdx : Nat) (db : List Row),
    (∀ a ∈ ora, ∀ r, a = some r → ∀ c, r.cursor = some c → 1 ≤ c.pagesize) →
    List.Chain' (fun x y => x < y) (pagedLoop key fp opts ora start cIdx db).starts
  | [], _, _, _, _ => by simp [pagedLoop]
  | none :: _, _, _, _, _ => by simp [pagedLoop]
  | some resp :: rest, start, cIdx, db, h => by
    simp only [pagedLoop]
    rcases hc : resp.cursor with _ | c
    · simp
    · by_cases hlt : start + c.pagesize < c.total
      · simp only [if_pos hlt]
        set s := pageInsertStep key (fp cIdx) opts db resp with hs
        have hps : 1 ≤ c.pagesize := h (some resp) (by simp) resp rfl c hc
        have htail := @pagedLoop_starts_chain key fp opts rest
          (start + c.pagesize) (cIdx + s.2.1) s.1
          (fun a ha r hr c2 hc2 => h a (List.mem_cons_of_mem _ ha) r hr c2 hc2)
        show List.Chain' (fun x y => x < y)
          (start :: (pagedLoop key fp opts rest (start + c.pagesize) (cIdx + s.2.1) s.1).starts)
        refine List.chain'_cons'.2 ⟨?_, htail⟩
        intro y hy
        obtain ⟨t, ht⟩ := pagedLoop_starts_head rest (start + c.pagesize) (cIdx + s.2.1) s.1
        rw [ht] at hy
        simp at hy
        omega
      · simp only [if_neg hlt]
        simp

lemma secLoop_starts_head :
    ∀ (ora : List (Option ApiResp)) (start : Nat),
    ∃ t, (getAllSecuritiesLoop ora start).starts = start :: t
  | [], _ => ⟨[], rfl⟩
  | none :: _, _ => ⟨[], rfl⟩
  | some resp :: rest, start => by
    simp only [getAllSecuritiesLoop]
    rcases hb : resp.block with _ | blk
    · exact ⟨[], rfl⟩
    · by_cases hd : blk.data = []
      · simp only [if_pos hd]
        exact ⟨[], rfl⟩
      · simp only [if_neg hd]
        rcases hc : resp.cursor with _ | c
        · exact ⟨[], rfl⟩
        · by_cases hge : start + c.pagesize ≥ c.total
          · simp only [if_pos hge]
            exact ⟨[], rfl⟩
          · simp only [if_neg hge]
            exact ⟨_, rfl⟩

lemma secLoop_starts_len :
    ∀ (ora : List (Option ApiResp)) (start : Nat),
    (getAllSecuritiesLoop ora start).starts.length ≤ ora.length + 1
  | [], _ => by simp [getAllSecuritiesLoop]
  | none :: _, _ => by simp [getAllSecuritiesLoop]
  | some resp :: rest, start => by
    simp only [getAllSecuritiesLoop]
    rcases hb : resp.block with _ | blk
    · simp
    · by_cases hd : blk.data = []
      · simp only [if_pos hd]
        simp
      · simp only [if_neg hd]
        rcases hc : resp.cursor with _ | c
        · simp
        · by_cases hge : start + c.pagesize ≥ c.total
          · simp only [if_pos hge]
            simp
          · simp only [if_neg hge]
            have hrec := secLoop_starts_len rest (start + c.pagesize)
            show (start :: (getAllSecuritiesLoop rest (start + c.pagesize)).starts).length ≤
              (some resp :: rest).length + 1
            rw [List.length_cons, List.length_cons]
            omega

lemma secLoop_starts_chain :
    ∀ (ora : List (Option ApiResp)) (start : Nat),
    (∀ a ∈ ora, ∀ r, a = some r → ∀ c, r.cursor = some c → 1 ≤ c.pagesize) →
    List.Chain' (fun x y => x < y) (getAllSecuritiesLoop ora start).starts
  | [], _, _ => by simp [getAllSecuritiesLoop]
  | none :: _, _, _ => by simp [getAllSecuritiesLoop]
  | some resp :: rest, start, h => by
    simp only [getAllSecuritiesLoop]
    rcases hb : resp.block with _ | blk
    · simp
    · by_cases hd : blk.data = []
      · simp only [if_pos hd]
        simp
      · simp only [if_neg hd]
        rcases hc : resp.cursor with _ | c
        · simp
        · by_cases hge : start + c.pagesize ≥ c.total
          · simp only [if_pos hge]
            simp
          · simp only [if_neg hge]
            have hps : 1 ≤ c.pagesize := h (some resp) (by simp) resp rfl c hc
            have htail := secLoop_starts_chain rest (start + c.pagesize)
              (fun a ha r hr c2 hc2 => h a (List.mem_cons_of_mem _ ha) r hr c2 hc2)
            show List.Chain' (fun x y => x < y)
              (start :: (getAllSecuritiesLoop rest (start + c.pagesize)).starts)
            refine List.chain'_cons'.2 ⟨?_, htail⟩
            intro y hy
            obtain ⟨t, ht⟩ := secLoop_starts_head rest (start + c.pagesize)
            rw [ht] at hy
            simp at hy
            omega

/-- Claim C5 (confirmed): the paginated fetchers follow the cursor protocol.
For the `has_more` loops of `main`: a response with no cursor stops the
sequence after its one request; with cursor `(i, total, pagesize)` the loop
issues the next request with `start` advanced by `pagesize` exactly when
`start + pagesize < total`, and stops otherwise. The same holds for
`get_all_securities` on pages carrying nonempty data (that loop additionally
stops on an empty or absent block). On the synthetic cursor sequence
`(0,250,100), (100,250,100), (200,250,100)` both fetchers issue exactly 3
requests with `start` values `0, 100, 200` and then stop. -/
theorem C5_theorem :
    (∀ (key : Row → List Cell) (fp : Nat → Option Nat) (opts : List String)
      (resp : ApiResp) (rest : List (Option ApiResp)) (start cIdx : Nat) (db : List Row),
      resp.cursor = none →
      (pagedLoop key fp opts (some resp :: rest) start cIdx db).starts = [start]) ∧
    (∀ (key : Row → List Cell) (fp : Nat → Option Nat) (opts : List String)
      (resp : ApiResp) (rest : List (Option ApiResp)) (start cIdx : Nat) (db : List Row)
      (c : Cursor),
      resp.cursor = some c → ¬ (start + c.pagesize < c.total) →
      (pagedLoop key fp opts (some resp :: rest) start cIdx db).starts = [start]) ∧
    (∀ (key : Row → List Cell) (fp : Nat → Option Nat) (opts : List String)
      (resp : ApiResp) (rest : List (Option ApiResp)) (start cIdx : Nat) (db : List Row)
      (c : Cursor),
      resp.cursor = some c → start + c.pagesize < c.total →
      (pagedLoop key fp opts (some resp :: rest) start cIdx db).starts =
        start :: (pagedLoop key fp opts rest (start + c.pagesize) cIdx db).starts) ∧
    (∀ (resp : ApiResp) (blk : Block) (rest : List (Option ApiResp)) (start : Nat),
      resp.block = some blk → blk.data ≠ [] → resp.cursor = none →
      (getAllSecuritiesLoop (some resp :: rest) start).starts = [start]) ∧
    (∀ (resp : ApiResp) (blk : Block) (rest : List (Option ApiResp)) (start : Nat)
      (c : Cursor),
      resp.block = some blk → blk.data ≠ [] → resp.cursor = some c →
      start + c.pagesize ≥ c.total →
      (getAllSecuritiesLoop (some resp :: rest) start).starts = [start]) ∧
    (∀ (resp : ApiResp) (blk : Block) (rest : List (Option ApiResp)) (start : Nat)
      (c : Cursor),
      resp.block = some blk → blk.data ≠ [] → resp.cursor = some c →
      ¬ (start + c.pagesize ≥ c.total) →
      (getAllSecuritiesLoop (some resp :: rest) start).starts =
        start :: (getAllSecuritiesLoop rest (start + c.pagesize)).starts) ∧
    (pagedLoop (fun r => r) (fun _ => none) [] c5Oracle 0 0 []).starts = [0, 100, 200] ∧
    (getAllSecuritiesLoop c5SecOracle 0).starts = [0, 100, 200] := by
  refine ⟨?_, ?_, ?_, ?_, ?_, ?_, rfl, rfl⟩
  · intro key fp opts resp rest start cIdx db h
    simp only [pagedLoop, h]
  · intro key fp opts resp rest start cIdx db c h h2
    simp only [pagedLoop, h, if_neg h2]
  · intro key fp opts resp rest start cIdx db c h h2
    simp only [pagedLoop, h, if_pos h2]
    exact congrArg (start :: ·) (pagedLoop_starts_indep rest _ _ _ _ _)
  · intro resp blk rest start hb hd hc
    simp only [getAllSecuritiesLoop, hb, if_neg hd, hc]
  · intro resp blk rest start c hb hd hc hge
    simp only [getAllSecuritiesLoop, hb, if_neg hd, hc, if_pos hge]
  · intro resp blk rest start c hb hd hc hge
    simp only [getAllSecuritiesLoop, hb, if_neg hd, hc, if_neg hge]

/-- Witness for `C5_theorem`: a single response with no cursor yields exactly
one request at the initial `start`. -/
theorem C5_witness :
    (pagedLoop (fun r => r) (fun _ => none) [] [some ⟨none, none⟩] 7 0 []).starts = [7] :=
  C5_theorem.1 (fun r => r) (fun _ => none) [] ⟨none, none⟩ [] 7 0 [] rfl

/-- Claim C10 (confirmed): every pagination loop terminates on a finite
response sequence — it issues at most (number of responses + 1) requests,
the `+ 1` being the final unanswered attempt — and when every decoded cursor
has `pagesize ≥ 1` the issued `start` values are strictly increasing (each
continuing iteration advances `start` by that response's pagesize toward its
total; `pagesize = 0` is the only way an answered iteration fails to make
progress). This covers the quotas and the two bondization `has_more` loops
(`pagedLoop`) and the all-securities fetch (`getAllSecuritiesLoop`). -/
theorem C10_theorem :
    (∀ (key : Row → List Cell) (fp : Nat → Option Nat) (opts : List String)
      (ora : List (Option ApiResp)) (start cIdx : Nat) (db : List Row),
      (pagedLoop key fp opts ora start cIdx db).starts.length ≤ ora.length + 1) ∧
    (∀ (key : Row → List Cell) (fp : Nat → Option Nat) (opts : List String)
      (ora : List (Option ApiResp)) (start cIdx : Nat) (db : List Row),
      (∀ a ∈ ora, ∀ r, a = some r → ∀ c, r.cursor = some c → 1 ≤ c.pagesize) →
      List.Chain' (fun x y => x < y) (pagedLoop key fp opts ora start cIdx db).starts) ∧
    (∀ (ora : List (Option ApiResp)) (start : Nat),
      (getAllSecuritiesLoop ora start).starts.length ≤ ora.length + 1) ∧
    (∀ (ora : List (Option ApiResp)) (start : Nat),
      (∀ a ∈ ora, ∀ r, a = some r → ∀ c, r.cursor = some c → 1 ≤ c.pagesize) →
      List.Chain' (fun x y => x < y) (getAllSecuritiesLoop ora start).starts) :=
  ⟨fun _ _ _ ora start cIdx db => pagedLoop_starts_len ora start cIdx db,
   fun _ _ _ ora start cIdx db h => pagedLoop_starts_chain ora start cIdx db h,
   fun ora start => secLoop_starts_len ora start,
   fun ora start h => secLoop_starts_chain ora start h⟩

/-- Witness for `C10_theorem`: on the three-response cursor sequence of claim
C5 (pagesize 100 throughout) the issued `start` values strictly increase. -/
theorem C10_witness :
    List.Chain' (fun x y => x < y)
      (pagedLoop (fun r => r) (fun _ => none) [] c5Oracle 0 0 []).starts :=
  C10_theorem.2.1 (fun r => r) (fun _ => none) [] c5Oracle 0 0 []
    (by
      intro a ha r hr c hc
      subst hr
      simp only [c5Oracle, c5Resp, List.mem_cons, List.not_mem_nil, or_false,
        Option.some.injEq] at ha
      rcases ha with h1 | h1 | h1 <;> subst h1 <;> injection hc with hc2 <;>
        subst hc2 <;> decide)


/-! Helper lemmas lifting monotonicity of the table state and the shape of the
event trace through the orchestration loops. -/

lemma insert_mono {key : Row → List Cell} {failAt : Option Nat} {db : List Row}
    {blk : Block} {opts : List String} :
    ∀ x ∈ db, x ∈ (insert_data_generic key failAt db blk opts).1 := by
  intro x hx
  rcases insert_fail_cases key failAt db blk opts with h | h
  · rw [h]
    exact hx
  · rw [h]
    obtain ⟨ext, he⟩ := insert_none_extend key db blk opts
    rw [he]
    exact List.mem_append_left _ hx

lemma pageInsertStep_evs {key : Row → List Cell} {fa : Option Nat} {opts : List String}
    {db : List Row} {resp : ApiResp} :
    ∀ e ∈ (pageInsertStep key fa opts db resp).2.2, ∃ r, e = Ev.insertCall r := by
  intro e he
  unfold pageInsertStep at he
  split at he
  · split at he
    · simp at he
    · simp at he
      exact ⟨_, he⟩
  · simp at he

lemma pageInsertStep_db_mono {key : Row → List Cell} {fa : Option Nat} {opts : List String}
    {db : List Row} {resp : ApiResp} :
    ∀ x ∈ db, x ∈ (pageInsertStep key fa opts db resp).1 := by
  intro x hx
  unfold pageInsertStep
  split
  · split
    · exact hx
    · exact insert_mono x hx
  · exact hx

lemma pagedLoop_evs {key : Row → List Cell} {fp : Nat → Option Nat} {opts : List String} :
    ∀ (ora : List (Option ApiResp)) (start cIdx : Nat) (db : List Row) (e : Ev),
    e ∈ (pagedLoop key fp opts ora start cIdx db).evs →
    e = Ev.fetch ∨ ∃ r, e = Ev.insertCall r
  | [], _, _, _, e, he => by
    simp [pagedLoop] at he
    exact Or.inl he
  | none :: _, _, _, _, e, he => by
    simp [pagedLoop] at he
    exact Or.inl he
  | some resp :: rest, start, cIdx, db, e, he => by
    simp only [pagedLoop] at he
    split at he
    · split at he
      · simp only [List.mem_cons, List.mem_append] at he
        rcases he with (rfl | he2) | he2
        · exact Or.inl rfl
        · exact Or.inr (pageInsertStep_evs e he2)
        · exact pagedLoop_evs rest _ _ _ e he2
      · simp only [List.mem_cons] at he
        rcases he with rfl | he2
        · exact Or.inl rfl
        · exact Or.inr (pageInsertStep_evs e he2)
    · simp only [List.mem_cons] at he
      rcases he with rfl | he2
      · exact Or.inl rfl
      · exact Or.inr (pageInsertStep_evs e he2)

lemma pagedLoop_db_mono {key : Row → List Cell} {fp : Nat → Option Nat} {opts : List String} :
    ∀ (ora : List (Option ApiResp)) (start cIdx : Nat) (db : List Row),
    ∀ x ∈ db, x ∈ (pagedLoop key fp opts ora start cIdx db).db
  | [], _, _, _, x, hx => hx
  | none :: _, _, _, _, x, hx => hx
  | some resp :: rest, start, cIdx, db, x, hx => by
    simp only [pagedLoop]
    split
    · split
      · exact pagedLoop_db_mono rest _ _ _ x (pageInsertStep_db_mono x hx)
      · exact pageInsertStep_db_mono x hx
    · exact pageInsertStep_db_mono x hx

lemma singleFetch_evs {key : Row → List Cell} {fp : Nat → Option Nat} {opts : List String} :
    ∀ (items : List String) (ora : List (Option ApiResp)) (cIdx : Nat) (db : List Row) (e : Ev),
    e ∈ (singleFetchInsertLoop key fp opts items ora cIdx db).evs →
    e = Ev.fetch ∨ ∃ r, e = Ev.insertCall r
  | [], _, _, _, e, he => by simp [singleFetchInsertLoop] at he
  | item :: items, ora, cIdx, db, e, he => by
    rcases ora with _ | ⟨d, rest⟩
    · simp only [singleFetchInsertLoop] at he
      rcases List.mem_cons.1 he with h | h
      · exact Or.inl h
      · exact singleFetch_evs items [] cIdx db e h
    · rcases d with _ | resp
      · simp only [singleFetchInsertLoop] at he
        rcases List.mem_cons.1 he with h | h
        · exact Or.inl h
        · exact singleFetch_evs items rest cIdx db e h
      · simp only [singleFetchInsertLoop] at he
        split at he
        · split at he
          · simp only [List.mem_cons] at he
            rcases he with rfl | he2
            · exact Or.inl rfl
            · exact singleFetch_evs items rest cIdx db e he2
          · simp only [List.mem_cons] at he
            rcases he with rfl | rfl | he2
            · exact Or.inl rfl
            · exact Or.inr ⟨_, rfl⟩
            · exact singleFetch_evs items rest (cIdx + 1) _ e he2
        · simp only [List.mem_cons] at he
          rcases he with rfl | he2
          · exact Or.inl rfl
          · exact singleFetch_evs items rest cIdx db e he2

lemma singleFetch_db_mono {key : Row → List Cell} {fp : Nat → Option Nat} {opts : List String} :
    ∀ (items : List String) (ora : List (Option ApiResp)) (cIdx : Nat) (db : List Row),
    ∀ x ∈ db, x ∈ (singleFetchInsertLoop key fp opts items ora cIdx db).db
  | [], _, _, _, x, hx => hx
  | item :: items, ora, cIdx, db, x, hx => by
    rcases ora with _ | ⟨d, rest⟩
    · exact singleFetch_db_mono items [] cIdx db x hx
    · rcases d with _ | resp
      · exact singleFetch_db_mono items rest cIdx db x hx
      · simp only [singleFetchInsertLoop]
        split
        · split
          · exact singleFetch_db_mono items rest cIdx db x hx
          · exact singleFetch_db_mono items rest (cIdx + 1) _ x (insert_mono x hx)
        · exact singleFetch_db_mono items rest cIdx db x hx

lemma quotasDatesIsin_evs {key : Row → List Cell} {fp : Nat → Option Nat}
    {opts : List String} {isins : List String} :
    ∀ (dates : List String) (ora : List (Option ApiResp)) (cIdx : Nat) (db : List Row) (e : Ev),
    e ∈ (quotasDatesIsin key fp opts isins dates ora cIdx db).evs →
    e = Ev.fetch ∨ ∃ r, e = Ev.insertCall r
  | [], _, _, _, e, he => by simp [quotasDatesIsin] at he
  | date :: dates, ora, cIdx, db, e, he => by
    simp only [quotasDatesIsin] at he
    rcases List.mem_append.1 he with h | h
    · exact singleFetch_evs isins ora cIdx db e h
    · exact quotasDatesIsin_evs dates _ _ _ e h

lemma quotasDatesIsin_db_mono {key : Row → List Cell} {fp : Nat → Option Nat}
    {opts : List String} {isins : List String} :
    ∀ (dates : List String) (ora : List (Option ApiResp)) (cIdx : Nat) (db : List Row),
    ∀ x ∈ db, x ∈ (quotasDatesIsin key fp opts isins dates ora cIdx db).db
  | [], _, _, _, x, hx => hx
  | date :: dates, ora, cIdx, db, x, hx => by
    simp only [quotasDatesIsin]
    exact quotasDatesIsin_db_mono dates _ _ _ x (singleFetch_db_mono isins ora cIdx db x hx)

lemma quotasDatesAll_evs {key : Row → List Cell} {fp : Nat → Option Nat}
    {opts : List String} :
    ∀ (dates : List String) (ora : List (Option ApiResp)) (cIdx : Nat) (db : List Row) (e : Ev),
    e ∈ (quotasDatesAll key fp opts dates ora cIdx db).evs →
    e = Ev.fetch ∨ ∃ r, e = Ev.insertCall r
  | [], _, _, _, e, he => by simp [quotasDatesAll] at he
  | date :: dates, ora, cIdx, db, e, he => by
    simp only [quotasDatesAll] at he
    rcases List.mem_append.1 he with h | h
    · exact pagedLoop_evs ora 0 cIdx db e h
    · exact quotasDatesAll_evs dates _ _ _ e h

lemma quotasDatesAll_db_mono {key : Row → List Cell} {fp : Nat → Option Nat}
    {opts : List String} :
    ∀ (dates : List String) (ora : List (Option ApiResp)) (cIdx : Nat) (db : List Row),
    ∀ x ∈ db, x ∈ (quotasDatesAll key fp opts dates ora cIdx db).db
  | [], _, _, _, x, hx => hx
  | date :: dates, ora, cIdx, db, x, hx => by
    simp only [quotasDatesAll]
    exact quotasDatesAll_db_mono dates _ _ _ x (pagedLoop_db_mono ora 0 cIdx db x hx)

lemma bondizationIsin_evs {key : Row → List Cell} {fp : Nat → Option Nat}
    {opts : List String} :
    ∀ (isins : List String) (ora : List (Option ApiResp)) (cIdx : Nat) (db : List Row) (e : Ev),
    e ∈ (bondizationIsinLoop key fp opts isins ora cIdx db).evs →
    e = Ev.fetch ∨ ∃ r, e = Ev.insertCall r
  | [], _, _, _, e, he => by simp [bondizationIsinLoop] at he
  | isin :: isins, ora, cIdx, db, e, he => by
    simp only [bondizationIsinLoop] at he
    rcases List.mem_append.1 he with h | h
    · exact pagedLoop_evs ora 0 cIdx db e h
    · exact bondizationIsin_evs isins _ _ _ e h

lemma bondizationIsin_db_mono {key : Row → List Cell} {fp : Nat → Option Nat}
    {opts : List String} :
    ∀ (isins : List String) (ora : List (Option ApiResp)) (cIdx : Nat) (db : List Row),
    ∀ x ∈ db, x ∈ (bondizationIsinLoop key fp opts isins ora cIdx db).db
  | [], _, _, _, x, hx => hx
  | isin :: isins, ora, cIdx, db, x, hx => by
    simp only [bondizationIsinLoop]
    exact bondizationIsin_db_mono isins _ _ _ x (pagedLoop_db_mono ora 0 cIdx db x hx)

lemma processKind_evs {ctx : RunCtx} {isins : List String} {ora : List (Option ApiResp)}
    {db1 : List Row} :
    ∀ e ∈ (processKind ctx isins ora db1).evs, e = Ev.fetch ∨ ∃ r, e = Ev.insertCall r := by
  intro e he
  unfold processKind at he
  split at he <;> split at he <;>
    first
      | exact singleFetch_evs isins ora 0 db1 e he
      | (rcases List.mem_map.1 he with ⟨a, ha, rfl⟩
         exact Or.inl rfl)
      | exact quotasDatesIsin_evs ctx.dates ora 0 db1 e he
      | exact quotasDatesAll_evs ctx.dates ora 0 db1 e he
      | exact bondizationIsin_evs isins ora 0 db1 e he
      | exact pagedLoop_evs ora 0 0 db1 e he

lemma processKind_db_mono {ctx : RunCtx} {isins : List String} {ora : List (Option ApiResp)}
    {db1 : List Row} :
    ∀ x ∈ db1, x ∈ (processKind ctx isins ora db1).db := by
  intro x hx
  unfold processKind
  split <;> split <;>
    first
      | exact singleFetch_db_mono isins ora 0 db1 x hx
      | exact hx
      | exact quotasDatesIsin_db_mono ctx.dates ora 0 db1 x hx
      | exact quotasDatesAll_db_mono ctx.dates ora 0 db1 x hx
      | exact bondizationIsin_db_mono isins ora 0 db1 x hx
      | exact pagedLoop_db_mono ora 0 0 db1 x hx

/-- Claim C1, counterexample to the claim as stated: a Mode=clear run with no
explicit ISIN set performs one fetch (the ISIN enumeration runs before the
mode is consulted, and — the enumeration never yielding ISINs — the run then
exits at "No ISINs found") and never truncates the table, which keeps its
prior row. The claim requires zero fetches and a truncation "regardless of
whether an explicit ISIN set was supplied". -/
theorem C1_counterexample :
    mainRun ctxC1 = ⟨[Ev.fetch], [[some "old"]], RunOutcome.exitedEarly⟩ ∧
    (mainRun ctxC1).events.count Ev.fetch = 1 ∧
    Ev.truncate ∉ (mainRun ctxC1).events :=
  ⟨rfl, rfl, by decide⟩

/-- Claim C1 (amended): for every Mode=clear run in which an explicit ISIN
set was supplied (and which opens its connection, finds the API base-url and
destination-table-name options, and whose TRUNCATE succeeds), the destination
table is truncated, zero fetch calls are made, and the run transitions
directly to Done after the truncation — the whole observable trace is
connection open, truncate, connection close, and the table ends empty. -/
theorem C1_theorem (ctx : RunCtx) (hm : ctx.mode = Mode.clear)
    (hi : isinGiven ctx.isinArg = true) (hc : ctx.connOk = true)
    (hu : ctx.baseUrlPresent = true) (t : String) (ht : ctx.tablesEntry = some t)
    (htr : ctx.truncOk = true) :
    mainRun ctx = ⟨[Ev.connOpen, Ev.truncate, Ev.connClose], [], RunOutcome.finished⟩ ∧
    (mainRun ctx).events.count Ev.fetch = 0 := by
  have hmain : mainRun ctx =
      ⟨[Ev.connOpen, Ev.truncate, Ev.connClose], [], RunOutcome.finished⟩ := by
    unfold mainRun runWithIsins
    simp [hi, hc, hu, ht, hm, htr]
  exact ⟨hmain, by rw [hmain]; decide⟩

/-- Witness for `C1_theorem`: a clear-mode run with `--isin RU000A0JX0J2` on
a one-row table truncates it, fetching nothing. -/
theorem C1_witness :
    mainRun ctxC1w = ⟨[Ev.connOpen, Ev.truncate, Ev.connClose], [], RunOutcome.finished⟩ ∧
    (mainRun ctxC1w).events.count Ev.fetch = 0 :=
  C1_theorem ctxC1w rfl rfl rfl rfl "quotes" rfl rfl

/-- Claim C3, counterexample to the claim as stated: a run whose only Page
insert fails with a storage error still ends with `RunOutcome.finished` — the
error is caught inside `insert_data_generic`, the transaction rolled back,
and `main` returns normally, so the process exit status is 0, not non-zero. -/
theorem C3_counterexample :
    mainRun ctxC3 = ⟨[Ev.connOpen, Ev.fetch, Ev.insertCall InsertResult.rolledBack,
      Ev.connClose], [], RunOutcome.finished⟩ := rfl

/-- Claim C3 (amended): a run whose insert attempts fail with unrecovered
storage errors exits with status zero, not non-zero — whenever the two config
lookups performed after connecting succeed, no run outcome is `raised`,
whatever the storage failure plan; and in the three-Page scenario whose
second Page fails, the first and third Pages' rows are committed and present
at the end while the run still finishes normally. -/
theorem C3_theorem :
    (∀ (ctx : RunCtx), ctx.baseUrlPresent = true → (∃ t, ctx.tablesEntry = some t) →
      (mainRun ctx).outcome ≠ RunOutcome.raised) ∧
    mainRun ctxC3pages = ⟨[Ev.connOpen, Ev.fetch, Ev.insertCall (InsertResult.ok 1),
      Ev.fetch, Ev.insertCall InsertResult.rolledBack, Ev.fetch,
      Ev.insertCall (InsertResult.ok 1), Ev.connClose],
      [[some "r1"], [some "r3"]], RunOutcome.finished⟩ := by
  constructor
  · rintro ctx hu ⟨t, ht⟩
    unfold mainRun runWithIsins
    by_cases hi : isinGiven ctx.isinArg
    · simp only [hi, if_true]
      by_cases hcc : ctx.connOk
      · simp only [hcc, hu, ht, Bool.not_true, Bool.false_eq_true, if_false]
        rcases hmode : ctx.mode with _ | _ | _ <;> simp
      · simp only [hcc, Bool.not_false, if_true]
        simp
    · simp only [hi, Bool.false_eq_true, if_false, hu, Bool.not_true]
      simp
  · rfl

/-- Witness for `C3_theorem`: the single-failing-Page run of
`C3_counterexample` does not end in `raised`. -/
theorem C3_witness : (mainRun ctxC3).outcome ≠ RunOutcome.raised :=
  C3_theorem.1 ctxC3 rfl ⟨"offers", rfl⟩

/-- Claim C4, counterexample to the claim as stated: when the `[TABLES]`
section lacks the chosen table's entry, `config.get('TABLES', args.table)`
(line 326) raises after the connection was opened (the trace contains
`connOpen`) but before the `try`/`finally` that closes it — the run ends
`raised` with no `connClose` in the trace. -/
theorem C4_counterexample :
    mainRun ctxC4 = ⟨[Ev.connOpen], [], RunOutcome.raised⟩ ∧
    Ev.connClose ∉ (mainRun ctxC4).events :=
  ⟨rfl, by decide⟩

/-- Claim C4 (amended): on every exit path of a run that opens its connection
and whose two post-connection config lookups (API base-url, destination table
name) succeed — normal completion, clear-mode early return, fetch failures,
storage errors — the last observable event is the connection close; the
uncovered paths are exactly exceptions raised by those two lookups, which sit
between `get_db_connection` and the `try`/`finally`. -/
theorem C4_theorem (ctx : RunCtx) (hi : isinGiven ctx.isinArg = true)
    (hc : ctx.connOk = true) (hu : ctx.baseUrlPresent = true)
    (t : String) (ht : ctx.tablesEntry = some t) :
    (mainRun ctx).events.getLast? = some Ev.connClose := by
  unfold mainRun runWithIsins
  simp only [hi, if_true, hc, hu, ht, Bool.not_true, Bool.false_eq_true, if_false]
  rcases hmode : ctx.mode with _ | _ | _ <;> simp only []
  · rfl
  · rw [List.getLast?_concat]
  · rw [List.getLast?_concat]

/-- Witness for `C4_theorem`: a well-configured update run ends by closing
its connection. -/
theorem C4_witness : (mainRun ctxC4w).events.getLast? = some Ev.connClose :=
  C4_theorem ctxC4w rfl rfl rfl "quotes" rfl

/-- Claim C9 (confirmed): a Mode=update run never truncates — no `truncate`
statement appears in its trace, every trace event is a fetch, an insert call
or the connection lifecycle, and every row present in the destination table
before the run is still present after it. -/
theorem C9_theorem (ctx : RunCtx) (hm : ctx.mode = Mode.update) :
    Ev.truncate ∉ (mainRun ctx).events ∧
    (∀ e ∈ (mainRun ctx).events,
      e = Ev.fetch ∨ (∃ r, e = Ev.insertCall r) ∨ e = Ev.connOpen ∨ e = Ev.connClose) ∧
    (∀ x ∈ ctx.db0, x ∈ (mainRun ctx).db) := by
  have key2 : (∀ e ∈ (mainRun ctx).events,
      e = Ev.fetch ∨ (∃ r, e = Ev.insertCall r) ∨ e = Ev.connOpen ∨ e = Ev.connClose) ∧
      (∀ x ∈ ctx.db0, x ∈ (mainRun ctx).db) := by
    unfold mainRun runWithIsins
    by_cases hi : isinGiven ctx.isinArg
    · simp only [hi, if_true]
      by_cases hcc : ctx.connOk
      · simp only [hcc, Bool.not_true, Bool.false_eq_true, if_false]
        by_cases hu : ctx.baseUrlPresent
        · simp only [hu, Bool.not_true, Bool.false_eq_true, if_false]
          rcases ht : ctx.tablesEntry with _ | t
          · constructor
            · intro e he
              simp at he
              simp [he]
            · intro x hx
              exact hx
          · simp only [hm]
            constructor
            · intro e he
              simp only [List.nil_append, List.cons_append, List.mem_cons,
                List.mem_append] at he
              rcases he with rfl | he2
              · exact Or.inr (Or.inr (Or.inl rfl))
              · rcases he2 with he3 | he3
                · rcases processKind_evs e he3 with h | h
                  · exact Or.inl h
                  · exact Or.inr (Or.inl h)
                · simp at he3
                  simp [he3]
            · intro x hx
              exact processKind_db_mono x hx
        · simp only [hu, Bool.not_false, if_true]
          constructor
          · intro e he
            simp at he
            simp [he]
          · intro x hx
            exact hx
      · simp only [hcc, Bool.not_false, if_true]
        constructor
        · intro e he
          simp at he
        · intro x hx
          exact hx
    · simp only [hi, Bool.false_eq_true, if_false]
      by_cases hu : ctx.baseUrlPresent
      · simp only [hu, Bool.not_true, Bool.false_eq_true, if_false]
        constructor
        · intro e he
          simp only [List.isEmpty_nil, if_true] at he
          rcases List.mem_map.1 he with ⟨a, ha, rfl⟩
          exact Or.inl rfl
        · intro x hx
          simp only [List.isEmpty_nil, if_true]
          exact hx
      · simp only [hu, Bool.not_false, if_true]
        constructor
        · intro e he
          simp at he
        · intro x hx
          exact hx
  refine ⟨?_, key2.1, key2.2⟩
  intro hmem
  rcases key2.1 _ hmem with h | ⟨r, h⟩ | h | h <;> simp at h

/-- Witness for `C9_theorem`: a three-Page update run (one Page failing) on a
table holding one prior row issues no truncate and keeps the prior row. -/
theorem C9_witness :
    Ev.truncate ∉ (mainRun ctxC9w).events ∧
    (∀ e ∈ (mainRun ctxC9w).events,
      e = Ev.fetch ∨ (∃ r, e = Ev.insertCall r) ∨ e = Ev.connOpen ∨ e = Ev.connClose) ∧
    (∀ x ∈ ctxC9w.db0, x ∈ (mainRun ctxC9w).db) :=
  C9_theorem ctxC9w rfl

end Moex
